import Mathlib

/-!
Shallow embedding of the `whats-up-doc` FASTQ metadata extractor
(modules `whats_up_doc.analysis`, `whats_up_doc.constants`,
`seqmeta.inference`, `seqmeta.io`), together with theorems checking the
natural-language specification against this embedding.

Python strings are modelled as `List Char`; Python `float` arithmetic on
quality scores and fractions is modelled by exact rational arithmetic
(all accumulated values are integer sums, so only derived means and
fractions are rational).  File I/O is replaced by the list of
`(header, sequence, quality)` triples that `seqmeta.io.read_fastq`
yields for the file, as the specification treats the read source as an
external collaborator.
-/

/-- Python strings, modelled as lists of characters. -/
abbrev Str : Type := List Char

/-- Coerce a Lean string literal to the `Str` model. -/
def str (s : String) : Str := s.data

/-- The ASCII whitespace characters recognised by Python's `str.strip`,
`str.split` and the regex class `\s` (the unicode cases are irrelevant
to this code base). -/
def pyIsSpace (c : Char) : Bool :=
  c = ' ' ∨ c = '\t' ∨ c = '\n' ∨ c = '\x0b' ∨ c = '\x0c' ∨ c = '\r'

/-- Python `str.strip()`: drop leading and trailing whitespace. -/
def pyStrip (s : Str) : Str :=
  ((s.dropWhile pyIsSpace).reverse.dropWhile pyIsSpace).reverse

/-- Python `str.lower()` (ASCII case, as used on header/keyword text). -/
def pyLower (s : Str) : Str := s.map Char.toLower

/-- Python `str.upper()` (ASCII case, as used on sequences/instruments). -/
def pyUpper (s : Str) : Str := s.map Char.toUpper

/-- Python's substring test `needle in hay`. -/
def isSubstringOf (needle hay : Str) : Bool :=
  needle.isPrefixOf hay ||
    match hay with
    | [] => false
    | _ :: t => isSubstringOf needle t

/-- Python `header.split(" ", 1)`: the part before the first space and
the part after it (`""` when there is no space, matching the
`parts[1] if len(parts) > 1 else ""` convention of `parse_read_header`). -/
def splitFirstSpace : Str → Str × Str
  | [] => ([], [])
  | c :: t =>
      if c = ' ' then ([], t)
      else
        let p := splitFirstSpace t
        (c :: p.1, p.2)

/-- Python `s.split(sep)` for a single-character separator. -/
def splitOnChar (sep : Char) : Str → List Str
  | [] => [[]]
  | c :: t =>
      if c = sep then [] :: splitOnChar sep t
      else
        match splitOnChar sep t with
        | [] => [[c]]
        | p :: ps => (c :: p) :: ps

/-- Python string comparison (code-point lexicographic), as a boolean
`≤` test used to model `sorted`. -/
def lexLe : Str → Str → Bool
  | [], _ => true
  | _ :: _, [] => false
  | a :: as, b :: bs => if a = b then lexLe as bs else decide (a < b)

/-- Insert into a list sorted by the boolean relation `le`, keeping
earlier elements first among ties (stability of Python's `sorted`). -/
def insertSorted (le : α → α → Bool) (x : α) : List α → List α
  | [] => [x]
  | y :: ys => if le x y then x :: y :: ys else y :: insertSorted le x ys

/-- Stable insertion sort by the boolean relation `le`, modelling
Python's `sorted`. -/
def sortByB (le : α → α → Bool) (l : List α) : List α :=
  l.foldr (insertSorted le) []

/-- Collapse every maximal run of whitespace to a single space:
`re.sub(r"\s+", " ", value)`. -/
def collapseWs : Str → Str
  | [] => []
  | [c] => [if pyIsSpace c then ' ' else c]
  | c :: d :: t =>
      if pyIsSpace c ∧ pyIsSpace d then collapseWs (d :: t)
      else (if pyIsSpace c then ' ' else c) :: collapseWs (d :: t)

/-- `seqmeta.inference.normalize_text`:
`re.sub(r"\s+", " ", value.strip().lower())`. -/
def normalize_text (value : Str) : Str :=
  collapseWs (pyLower (pyStrip value))

/-- `collections.Counter` over keys `κ`, modelled as an association
list in key-insertion order (Python dicts preserve insertion order). -/
abbrev Counter (κ : Type) : Type := List (κ × Nat)

/-- `counter[k]` (`0` for a missing key). -/
def Counter.get [DecidableEq κ] (c : Counter κ) (k : κ) : Nat :=
  match c.find? (fun p => decide (p.1 = k)) with
  | some p => p.2
  | none => 0

/-- `counter[k] += n`: update an existing key in place, or append a new
key at the end (Python dict insertion order). -/
def Counter.incr [DecidableEq κ] (c : Counter κ) (k : κ) (n : Nat) : Counter κ :=
  match c with
  | [] => [(k, n)]
  | p :: rest => if p.1 = k then (p.1, p.2 + n) :: rest else p :: Counter.incr rest k n

/-- `counter.update(other)`: add the counts of `other` into `counter`. -/
def Counter.update [DecidableEq κ] (c other : Counter κ) : Counter κ :=
  other.foldl (fun acc p => Counter.incr acc p.1 p.2) c

/-- `counter.most_common()`: entries sorted by count, descending, with
ties in first-insertion order (Python's sort is stable). -/
def Counter.most_common (c : Counter κ) : List (κ × Nat) :=
  sortByB (fun a b => decide (b.2 ≤ a.2)) c

/-! ## Reference tables (`whats_up_doc/constants.py`)

The Python `OrderedDict`s become ordered association lists, preserving
the declared, order-sensitive matching priority. -/

/-- `ADAPTER_SEQUENCES`. -/
def ADAPTER_SEQUENCES : List (Str × Str) :=
  [ (str "TruSeq Universal Adapter", str "AGATCGGAAGAG"),
    (str "TruSeq LT Adapter", str "AGATCGGAAGAGCACACGTCT"),
    (str "Nextera Transposase Adapter", str "CTGTCTCTTATACACATCT"),
    (str "Nextera Read 2", str "CTGTCTCTTATACACATCTGACGCTGCCGACGA"),
    (str "Nextera Read 1", str "TCGTCGGCAGCGTCAGATGTGTATAAGAGACAG"),
    (str "NEBNext Universal Adapter", str "AGATCGGAAGAGCACACGTCTGAACTCCAGTCAC"),
    (str "Ion Torrent Adapter A", str "CCATCTCATCCCTGCGTGTCTCCGACTCAG"),
    (str "Ion Torrent Adapter P1", str "CCTCTCTATGGGCAGTCGGTGAT"),
    (str "Swift Accel-NGS", str "GTTCAGAGTTCTACAGTCCGACGATC") ]

/-- `ORGANISM_KEYWORDS`. -/
def ORGANISM_KEYWORDS : List (Str × List Str) :=
  [ (str "Homo sapiens", [str "human", str "homo", str "hg19", str "hg38", str "grch", str "hs"]),
    (str "Mus musculus", [str "mouse", str "mm", str "mus", str "grcm", str "mm10"]),
    (str "Rattus norvegicus", [str "rat", str "rn"]),
    (str "Danio rerio", [str "zebrafish", str "dr", str "danio"]),
    (str "Drosophila melanogaster", [str "dros", str "dm", str "fruitfly"]),
    (str "Arabidopsis thaliana", [str "arabidopsis", str "at"]),
    (str "Saccharomyces cerevisiae", [str "yeast", str "sc", str "s288c"]),
    (str "Escherichia coli", [str "ecoli", str "e.coli", str "mg1655", str "ec"]),
    (str "Mycobacterium tuberculosis", [str "mtb", str "h37rv", str "mycobacter"]),
    (str "Plasmodium falciparum", [str "plasmodium", str "pfal", str "pf3d7"]) ]

/-- `TISSUE_KEYWORDS`. -/
def TISSUE_KEYWORDS : List (Str × List Str) :=
  [ (str "Blood", [str "blood", str "plasma", str "serum", str "pbmc"]),
    (str "Brain", [str "brain", str "cortex", str "hippocampus", str "neuron"]),
    (str "Liver", [str "liver", str "hepato"]),
    (str "Heart", [str "heart", str "cardiac"]),
    (str "Lung", [str "lung", str "pulmo"]),
    (str "Kidney", [str "kidney", str "renal"]),
    (str "Tumor", [str "tumor", str "tumour", str "cancer", str "carcinoma"]),
    (str "Plant", [str "leaf", str "root", str "seed", str "flower"]),
    (str "Microbial culture", [str "culture", str "isolate", str "strain"]) ]

/-- `LIBRARY_KEYWORDS`. -/
def LIBRARY_KEYWORDS : List (Str × List Str) :=
  [ (str "RNA-seq", [str "rna", str "mrna", str "transcript", str "transcriptome"]),
    (str "Single cell RNA-seq", [str "scrna", str "10x", str "cellranger"]),
    (str "Total RNA-seq", [str "totalrna", str "ribo", str "ribodeplete"]),
    (str "ChIP-seq", [str "chip", str "h3k", str "h3"]),
    (str "ATAC-seq", [str "atac", str "tn5"]),
    (str "Whole genome sequencing", [str "wgs", str "genome", str "illumina dna prep"]),
    (str "Whole exome sequencing", [str "wes", str "exome", str "target"]),
    (str "Metagenomic", [str "metagenome", str "metagenomic", str "microbiome"]),
    (str "Amplicon", [str "amplicon", str "16s", str "its"]),
    (str "Methylation", [str "methyl", str "bsseq", str "bisulfite"]) ]

/-- `ENRICHMENT_KEYWORDS`. -/
def ENRICHMENT_KEYWORDS : List (Str × List Str) :=
  [ (str "Poly-A selection", [str "polya", str "poly-a", str "mrna"]),
    (str "Ribosomal depletion", [str "ribodeplete", str "rrna", str "ribominus"]),
    (str "Exome capture", [str "exome", str "sureselect", str "twist", str "xgen"]),
    (str "PCR amplicon", [str "amplicon", str "pcr"]),
    (str "Immune repertoire", [str "vdj", str "igh", str "tcr"]) ]

/-- `INSTRUMENT_PREFIXES`: ordered groups of instrument-name starts,
each mapped to a platform. -/
def INSTRUMENT_PREFIXES : List (List Str × Str) :=
  [ ([str "NS", str "NB"], str "Illumina NextSeq"),
    ([str "MN"], str "Illumina MiniSeq"),
    ([str "M0", str "M1", str "MI", str "MS"], str "Illumina MiSeq"),
    ([str "A", str "D", str "E"], str "Illumina NovaSeq"),
    ([str "J"], str "Illumina HiSeq X"),
    ([str "K", str "L"], str "Illumina NovaSeq X"),
    ([str "HWI", str "HWUSI", str "HS", str "HI", str "HC"], str "Illumina HiSeq"),
    ([str "ST", str "SL", str "SN"], str "Illumina HiSeq 3000/4000"),
    ([str "VH", str "V3", str "V4"], str "Illumina NextSeq 2000") ]

/-- `GC_CONTENT_HEURISTICS` (thresholds as exact rationals). -/
def GC_CONTENT_HEURISTICS : List (ℚ × Str) :=
  [ (65/100, str "High GC content (possible bacteria or GC-rich organism)"),
    (50/100, str "Moderate GC content (many microbial or plant genomes)"),
    (40/100, str "Mammalian-like GC content"),
    (30/100, str "AT-rich content (possible parasites or amplicons)") ]

/-! ## Heuristic inference (`seqmeta/inference.py`) -/

/-- `find_keyword_matches`: walk the keyword table in declared order;
for each label append it (once, the inner loop breaks) when some
non-empty keyword is a substring of the normalised text. -/
def find_keyword_matches (value : Str) (keyword_map : List (Str × List Str)) : List Str :=
  let value_norm := normalize_text value
  keyword_map.foldl
    (fun ms p =>
      if p.2.any (fun keyword => keyword ≠ [] && isSubstringOf (pyLower keyword) value_norm)
      then ms ++ [p.1] else ms)
    []

/-- Result of `infer_organisms` (`{"candidates": ..., "gc_annotation": ...}`). -/
structure OrganismInfo where
  candidates : List Str
  gc_annotation : List Str

/-- `infer_organisms`: keyword candidates plus at most one GC-content
annotation, chosen by the first threshold met (`for ... break ... else`). -/
def infer_organisms (sample_id : Str) (gc_fraction : Option ℚ) : OrganismInfo :=
  { candidates := find_keyword_matches sample_id ORGANISM_KEYWORDS
    gc_annotation :=
      match gc_fraction with
      | none => []
      | some gc =>
          match GC_CONTENT_HEURISTICS.find? (fun p => decide (p.1 ≤ gc)) with
          | some p => [p.2]
          | none => [str "Very AT rich content"] }

/-- `infer_tissues`. -/
def infer_tissues (sample_id : Str) : List Str :=
  find_keyword_matches sample_id TISSUE_KEYWORDS

/-- `infer_library_types`: keyword matches united with adapter-name
triggered labels; Python's `sorted(set(...))` becomes
de-duplication followed by a lexicographic sort. -/
def infer_library_types (sample_id : Str) (adapter_hits : List Str) : List Str :=
  let annotations := find_keyword_matches sample_id LIBRARY_KEYWORDS
  let annotations :=
    adapter_hits.foldl
      (fun acc adapter_name =>
        let acc := if isSubstringOf (str "Nextera") adapter_name
                   then acc ++ [str "Tagmentation library"] else acc
        let acc := if isSubstringOf (str "TruSeq") adapter_name
                   then acc ++ [str "TruSeq-based library"] else acc
        if isSubstringOf (str "Ion Torrent") adapter_name
        then acc ++ [str "Ion Torrent library"] else acc)
      annotations
  sortByB lexLe annotations.dedup

/-- `infer_enrichments`. -/
def infer_enrichments (sample_id : Str) : List Str :=
  find_keyword_matches sample_id ENRICHMENT_KEYWORDS

/-- The prefix-group scan inside `instrument_to_platform`: return the
platform of the first group containing a matching start-of-string. -/
def platformScan (table : List (List Str × Str)) (instrument_upper : Str) : Option Str :=
  match table with
  | [] => none
  | (prefixes, platform) :: rest =>
      if prefixes.any (fun p => p.isPrefixOf instrument_upper)
      then some platform
      else platformScan rest instrument_upper

/-- `instrument_to_platform`: `None` for an absent or empty instrument
(`if not instrument`), otherwise scan `INSTRUMENT_PREFIXES` over the
upper-cased name. -/
def instrument_to_platform (instrument : Option Str) : Option Str :=
  match instrument with
  | none => none
  | some [] => none
  | some s => platformScan INSTRUMENT_PREFIXES (pyUpper s)

/-- `classify_index_type`: `"none"` for an empty set of non-empty
indexes, `"dual"` when one contains `+`, else `"single"`. -/
def classify_index_type (index_sequences : List Str) : String :=
  let unique_indexes := (index_sequences.filter (fun i => i ≠ [])).dedup
  if unique_indexes = [] then "none"
  else if unique_indexes.any (fun index => index.contains '+') then "dual"
  else "single"

/-- A nucleotide letter as matched by the regex class `[acgt]` under
`re.IGNORECASE`. -/
def isNuclChar (c : Char) : Bool :=
  c = 'a' ∨ c = 'c' ∨ c = 'g' ∨ c = 't' ∨ c = 'A' ∨ c = 'C' ∨ c = 'G' ∨ c = 'T'

/-- Does the regex `umi[_:-]?[acgt]+` (case-insensitive) match at the
start of the text? -/
def umiMatchAt (s : Str) : Bool :=
  match s with
  | u :: m :: i :: rest =>
      u.toLower = 'u' && m.toLower = 'm' && i.toLower = 'i' &&
        (match rest with
         | [] => false
         | c :: rest2 =>
             if isNuclChar c then true
             else if c = '_' ∨ c = ':' ∨ c = '-' then
               match rest2 with
               | d :: _ => isNuclChar d
               | [] => false
             else false)
  | _ => false

/-- `re.search` of the UMI pattern: a match at some position. -/
def umiSearch : Str → Bool
  | [] => false
  | c :: t => umiMatchAt (c :: t) || umiSearch t

/-- `detect_umi_from_headers`. -/
def detect_umi_from_headers (headers : List Str) : Bool :=
  headers.any umiSearch

/-- One entry of the `summarise_adapter_hits` result. -/
structure AdapterSummary where
  adapter : Str
  count : Nat
  fraction_of_hits : ℚ

/-- `summarise_adapter_hits`: empty for zero total hits, otherwise the
counter in `most_common` order with each count's fraction of the total. -/
def summarise_adapter_hits (hit_counter : Counter Str) : List AdapterSummary :=
  let total_hits := (hit_counter.map Prod.snd).sum
  if total_hits = 0 then []
  else
    (Counter.most_common hit_counter).map
      (fun p => { adapter := p.1, count := p.2,
                  fraction_of_hits := (p.2 : ℚ) / (total_hits : ℚ) })

/-! ## Header parser and statistics accumulator (`whats_up_doc/analysis.py`) -/

/-- The mapping produced by `parse_read_header`: an association list of
field names to values, in insertion order (a Python dict). -/
abbrev HeaderInfo : Type := List (String × Str)

/-- Python `data.get(key)`: `None` for a missing key. -/
def headerGet (info : HeaderInfo) (key : String) : Option Str :=
  (info.find? (fun p => p.1 == key)).map Prod.snd

/-- `parse_read_header`: strip, drop a leading `@`, split on the first
space, then map colon-separated tokens positionally, each field gated
on the available token count. -/
def parse_read_header (header : Str) : HeaderInfo :=
  let header := pyStrip header
  let header := if header.head? = some '@' then header.tail else header
  let parts := splitFirstSpace header
  let first_part := parts.1
  let second_part := parts.2
  let tokens := splitOnChar ':' first_part
  let data : HeaderInfo :=
    (if 4 ≤ tokens.length then
      [("instrument", tokens.getD 0 []), ("run_number", tokens.getD 1 []),
       ("flowcell_id", tokens.getD 2 []), ("lane", tokens.getD 3 [])]
     else []) ++
    (if 5 ≤ tokens.length then [("tile", tokens.getD 4 [])] else []) ++
    (if 6 ≤ tokens.length then [("x_pos", tokens.getD 5 [])] else []) ++
    (if 7 ≤ tokens.length then [("y_pos", tokens.getD 6 [])] else [])
  data ++
    (if second_part ≠ [] then
      let second_tokens := splitOnChar ':' second_part
      (if 1 ≤ second_tokens.length then [("read", second_tokens.getD 0 [])] else []) ++
      (if 2 ≤ second_tokens.length then [("is_filtered", second_tokens.getD 1 [])] else []) ++
      (if 3 ≤ second_tokens.length then [("control_number", second_tokens.getD 2 [])] else []) ++
      (if 4 ≤ second_tokens.length then [("index_sequence", second_tokens.getD 3 [])] else [])
     else [])

/-- `ReadStats`: the running aggregates of one FASTQ file.  The
per-cycle quality sums are integer-valued in the source (floats that
only ever receive integer increments), so they are modelled as `Int`. -/
structure ReadStats where
  read_count : Nat := 0
  total_bases : Nat := 0
  gc_bases : Nat := 0
  lengths : List Nat := []
  read_mean_qualities : List ℚ := []
  min_length : Option Nat := none
  max_length : Option Nat := none
  min_read_mean_quality : Option ℚ := none
  max_read_mean_quality : Option ℚ := none
  sum_quality_scores : Int := 0
  base_counts : Counter Char := []
  cycle_quality_sums : List Int := []
  cycle_quality_counts : List Nat := []
  headers_sampled : List Str := []
  index_sequences : Counter Str := []
  adapter_hits : Counter Str := []
  first_header_info : Option HeaderInfo := none

/-- The default-initialised `ReadStats()` dataclass. -/
def ReadStats.init : ReadStats := {}

/-- Add `scores` element-wise into the leading entries of `arr`
(the effect of `for idx, score in enumerate(scores): arr[idx] += score`
on an array at least as long as `scores`). -/
def bumpSums (arr : List Int) (scores : List Int) : List Int :=
  match arr, scores with
  | arr, [] => arr
  | [], _ => []
  | a :: arr, s :: scores => (a + s) :: bumpSums arr scores

/-- Add `1` to the first `k` entries of `arr` (the effect of the same
loop on the per-cycle observation counts). -/
def bumpCounts (arr : List Nat) (k : Nat) : List Nat :=
  match arr, k with
  | arr, 0 => arr
  | [], _ => []
  | a :: arr, k + 1 => (a + 1) :: bumpCounts arr k

/-- The adapter-scanning loop at the end of `add_read`: for every
catalog entry whose (non-empty) sequence occurs in the upper-cased
read, add one hit for that adapter name. -/
def adapterHitsUpdate (hits : Counter Str) (seq_upper : Str) : Counter Str :=
  ADAPTER_SEQUENCES.foldl
    (fun c p =>
      if p.2 ≠ [] && isSubstringOf p.2 seq_upper then Counter.incr c p.1 1 else c)
    hits

/-- `ReadStats.add_read`: strip both strings, silently skip a read with
an empty sequence or mismatched sequence/quality lengths, otherwise
update every aggregate. -/
def ReadStats.add_read (s : ReadStats) (header sequence quality : Str) : ReadStats :=
  let sequence := pyStrip sequence
  let quality := pyStrip quality
  if sequence.length = 0 then s
  else if sequence.length ≠ quality.length then s
  else
    let length := sequence.length
    let seq_upper := pyUpper sequence
    let scores : List Int := quality.map (fun char => (char.toNat : Int) - 33)
    let mean_quality : ℚ := if length ≠ 0 then (scores.sum : ℚ) / (length : ℚ) else 0
    let extend_by := length - s.cycle_quality_sums.length
    let needs_extend := s.cycle_quality_sums.length < length
    let sums_base :=
      if needs_extend then s.cycle_quality_sums ++ List.replicate extend_by 0
      else s.cycle_quality_sums
    let counts_base :=
      if needs_extend then s.cycle_quality_counts ++ List.replicate extend_by 0
      else s.cycle_quality_counts
    let header_info := parse_read_header header
    { read_count := s.read_count + 1
      total_bases := s.total_bases + length
      gc_bases := s.gc_bases + seq_upper.countP (fun base => base = 'G' ∨ base = 'C')
      lengths := s.lengths ++ [length]
      read_mean_qualities := s.read_mean_qualities ++ [mean_quality]
      min_length := some (match s.min_length with
                          | none => length
                          | some m => min m length)
      max_length := some (match s.max_length with
                          | none => length
                          | some m => max m length)
      min_read_mean_quality := some (match s.min_read_mean_quality with
                                     | none => mean_quality
                                     | some m => min m mean_quality)
      max_read_mean_quality := some (match s.max_read_mean_quality with
                                     | none => mean_quality
                                     | some m => max m mean_quality)
      sum_quality_scores := s.sum_quality_scores + scores.sum
      base_counts := seq_upper.foldl (fun c ch => Counter.incr c ch 1) s.base_counts
      cycle_quality_sums := bumpSums sums_base scores
      cycle_quality_counts := bumpCounts counts_base scores.length
      headers_sampled := if s.headers_sampled.length < 100
                         then s.headers_sampled ++ [header]
                         else s.headers_sampled
      index_sequences :=
        match headerGet header_info "index_sequence" with
        | some index_sequence =>
            if index_sequence ≠ [] then Counter.incr s.index_sequences index_sequence 1
            else s.index_sequences
        | none => s.index_sequences
      adapter_hits := adapterHitsUpdate s.adapter_hits seq_upper
      first_header_info := some (match s.first_header_info with
                                 | none => header_info
                                 | some info => info) }

/-- `ReadStats.gc_fraction`. -/
def ReadStats.gc_fraction (s : ReadStats) : Option ℚ :=
  if s.total_bases = 0 then none
  else some ((s.gc_bases : ℚ) / (s.total_bases : ℚ))

/-- `ReadStats.mean_quality`. -/
def ReadStats.mean_quality (s : ReadStats) : Option ℚ :=
  if s.total_bases = 0 then none
  else some ((s.sum_quality_scores : ℚ) / (s.total_bases : ℚ))

/-- `statistics.median` on rationals: middle of the sorted data, or the
mean of the two middle entries for even length (callers guard against
the empty list, where Python raises). -/
def medianQ (l : List ℚ) : ℚ :=
  let sorted := sortByB (fun a b => decide (a ≤ b)) l
  let n := sorted.length
  if n % 2 = 1 then sorted.getD (n / 2) 0
  else (sorted.getD (n / 2 - 1) 0 + sorted.getD (n / 2) 0) / 2

/-- The per-cycle mean list built inside `ReadStats.summary`
(`total / count if count else math.nan`, with `nan` modelled as
`none`). -/
def per_cycle_mean_of (s : ReadStats) : List (Option ℚ) :=
  (s.cycle_quality_sums.zip s.cycle_quality_counts).map
    (fun p => if p.2 = 0 then none else some ((p.1 : ℚ) / (p.2 : ℚ)))

/-- The `"quality"` block of a full summary. -/
structure QualityBlock where
  mean_phred : Option ℚ
  median_read_mean_phred : Option ℚ
  min_read_mean_phred : Option ℚ
  max_read_mean_phred : Option ℚ
  per_cycle_mean : List (Option ℚ)

/-- The dictionary returned by `ReadStats.summary`.  Keys present only
in the full (non-zero-read) summary are `Option`-valued, with `none`
standing for an absent key; `read_count`, `average_length`,
`median_length` and `gc_fraction` appear in both shapes. -/
structure Summary where
  read_count : Nat
  average_length : ℚ
  median_length : ℚ
  gc_fraction : Option ℚ
  length_range : Option (Option Nat × Option Nat)
  n_fraction : Option ℚ
  base_composition : Option (Counter Char)
  quality : Option QualityBlock
  index_sequences : Option (List (Str × Nat))
  adapter_hits : Option (Counter Str)
  header_examples : Option (List Str)
  first_header : Option (Option HeaderInfo)

/-- `ReadStats.summary`: a minimal structure for zero reads, otherwise
the full derivation from the accumulated state. -/
def ReadStats.summary (s : ReadStats) : Summary :=
  if s.read_count = 0 then
    { read_count := 0
      average_length := 0
      median_length := 0
      gc_fraction := none
      length_range := none
      n_fraction := none
      base_composition := none
      quality := none
      index_sequences := none
      adapter_hits := none
      header_examples := none
      first_header := none }
  else
    { read_count := s.read_count
      average_length := if s.read_count ≠ 0 then (s.total_bases : ℚ) / (s.read_count : ℚ) else 0
      median_length := if s.lengths ≠ [] then medianQ (s.lengths.map (fun n => (n : ℚ))) else 0
      gc_fraction := ReadStats.gc_fraction s
      length_range := some (s.min_length, s.max_length)
      n_fraction := some (if s.total_bases ≠ 0
                          then (Counter.get s.base_counts 'N' : ℚ) / (s.total_bases : ℚ) else 0)
      base_composition := some s.base_counts
      quality := some
        { mean_phred := ReadStats.mean_quality s
          median_read_mean_phred := if s.read_mean_qualities ≠ []
                                    then some (medianQ s.read_mean_qualities) else none
          min_read_mean_phred := s.min_read_mean_quality
          max_read_mean_phred := s.max_read_mean_quality
          per_cycle_mean := per_cycle_mean_of s }
      index_sequences := some ((Counter.most_common s.index_sequences).take 10)
      adapter_hits := some s.adapter_hits
      header_examples := some (s.headers_sampled.take 5)
      first_header := some s.first_header_info }

/-! ## Sample report builder (`analyze_sample` and helpers) -/

/-- One FASTQ record as yielded by `seqmeta.io.read_fastq`. -/
structure FastqRead where
  header : Str
  sequence : Str
  quality : Str

/-- Fold a list of reads into a fresh accumulator (the loop of
`collect_read_statistics`, starting from `ReadStats()`). -/
def mkReadStats (reads : List FastqRead) : ReadStats :=
  reads.foldl (fun s r => ReadStats.add_read s r.header r.sequence r.quality) ReadStats.init

/-- `collect_read_statistics`: the FASTQ file is replaced by the list of
records it yields; `read_fastq`'s `max_reads` cap truncates the
stream. -/
def collect_read_statistics (reads : List FastqRead) (max_reads : Nat) : ReadStats :=
  mkReadStats (reads.take max_reads)

/-- Does `add_read` accept this record (stripped sequence non-empty and
matching the stripped quality in length)? -/
def FastqRead.accepted (r : FastqRead) : Bool :=
  decide ((pyStrip r.sequence).length ≠ 0 ∧
    (pyStrip r.sequence).length = (pyStrip r.quality).length)

/-- The accepted length of a record: its stripped sequence length. -/
def FastqRead.alen (r : FastqRead) : Nat := (pyStrip r.sequence).length

/-- The Phred scores `ord(char) - 33` of the record's stripped quality
string. -/
def FastqRead.scores (r : FastqRead) : List Int :=
  (pyStrip r.quality).map (fun char => (char.toNat : Int) - 33)

/-- `_combine_counters`. -/
def combine_counters [DecidableEq κ] (counters : List (Counter κ)) : Counter κ :=
  counters.foldl (fun combined c => Counter.update combined c) []

/-- `_aggregate_headers`. -/
def aggregate_headers (stats_list : List ReadStats) : List Str :=
  stats_list.foldl (fun headers stats => headers ++ stats.headers_sampled) []

/-- `[r1_stats] + ([r2_stats] if r2_stats else [])` of `analyze_sample`. -/
def stats_list_of (r1_reads : List FastqRead) (r2_reads : Option (List FastqRead))
    (max_reads : Nat) : List ReadStats :=
  [collect_read_statistics r1_reads max_reads] ++
    (match r2_reads.map (fun rs => collect_read_statistics rs max_reads) with
     | some s => [s]
     | none => [])

/-- `total_sampled_reads` of `analyze_sample`. -/
def total_sampled_reads_of (r1_reads : List FastqRead) (r2_reads : Option (List FastqRead))
    (max_reads : Nat) : Nat :=
  ((stats_list_of r1_reads r2_reads max_reads).map ReadStats.read_count).sum

/-- `combined_adapter_counter` of `analyze_sample`. -/
def combined_adapter_counter_of (r1_reads : List FastqRead)
    (r2_reads : Option (List FastqRead)) (max_reads : Nat) : Counter Str :=
  combine_counters ((stats_list_of r1_reads r2_reads max_reads).map ReadStats.adapter_hits)

/-- The `sequencing_run` block of the metadata record. -/
structure SequencingRun where
  instrument : Option Str
  platform : Option Str
  flowcell_id : Option Str
  run_number : Option Str
  lane : Option Str
  index_type : String
  index_sequences : List (Str × Nat)
  umi_in_headers : Bool

/-- The `library` block of the metadata record. -/
structure LibraryInfo where
  adapter_hits : List AdapterSummary
  library_type_guesses : List Str
  enrichment_guesses : List Str
  adapter_hit_rate : ℚ

/-- The `read_metrics` block of the metadata record. -/
structure ReadMetrics where
  r1 : Summary
  r2 : Option Summary

/-- The metadata record returned by `analyze_sample` (the `files` block
merely echoes the input paths, which the embedding replaces by read
lists, so it is not modelled). -/
structure SampleMetadata where
  sample_id : Str
  paired_end : Bool
  sequencing_run : SequencingRun
  library : LibraryInfo
  organism : OrganismInfo
  tissue_guesses : List Str
  read_metrics : ReadMetrics
  warnings : List Str

/-- `analyze_sample`, with each FASTQ path replaced by the record list
its file yields.  The result is `Except` because the warning check
`r1_summary["n_fraction"]` is a plain dictionary indexing that raises
`KeyError` when the key is absent; every other partial operation in the
source is guarded. -/
def analyze_sample (sample_id : Str) (r1_reads : List FastqRead)
    (r2_reads : Option (List FastqRead)) (max_reads : Nat) :
    Except String SampleMetadata :=
  let r1_stats := collect_read_statistics r1_reads max_reads
  let r2_stats := r2_reads.map (fun rs => collect_read_statistics rs max_reads)
  let stats_list := stats_list_of r1_reads r2_reads max_reads
  let total_sampled_reads := total_sampled_reads_of r1_reads r2_reads max_reads
  let combined_index_counter := combine_counters (stats_list.map ReadStats.index_sequences)
  let combined_adapter_counter := combined_adapter_counter_of r1_reads r2_reads max_reads
  let gc_fraction_values := (stats_list.map ReadStats.gc_fraction).filterMap id
  let gc_fraction := if gc_fraction_values ≠ []
                     then some (gc_fraction_values.sum / (gc_fraction_values.length : ℚ))
                     else none
  let instrument := r1_stats.first_header_info.bind (fun info => headerGet info "instrument")
  let flowcell_id := r1_stats.first_header_info.bind (fun info => headerGet info "flowcell_id")
  let run_number := r1_stats.first_header_info.bind (fun info => headerGet info "run_number")
  let lane := r1_stats.first_header_info.bind (fun info => headerGet info "lane")
  let platform := instrument_to_platform instrument
  let adapter_summary := summarise_adapter_hits combined_adapter_counter
  let adapter_names := adapter_summary.map AdapterSummary.adapter
  let top_adapter_fraction : ℚ :=
    if combined_adapter_counter ≠ [] ∧ total_sampled_reads ≠ 0 then
      match Counter.most_common combined_adapter_counter with
      | p :: _ => (p.2 : ℚ) / (total_sampled_reads : ℚ)
      | [] => 0
    else 0
  let organism_info := infer_organisms sample_id gc_fraction
  let tissues := infer_tissues sample_id
  let library_types := infer_library_types sample_id adapter_names
  let enrichments := infer_enrichments sample_id
  let index_type := classify_index_type (combined_index_counter.map Prod.fst)
  let umi_present := detect_umi_from_headers (aggregate_headers stats_list)
  let r1_summary := ReadStats.summary r1_stats
  let read_metrics : ReadMetrics :=
    { r1 := r1_summary, r2 := r2_stats.map ReadStats.summary }
  let sequencing_run : SequencingRun :=
    { instrument := instrument
      platform := platform
      flowcell_id := flowcell_id
      run_number := run_number
      lane := lane
      index_type := index_type
      index_sequences := (Counter.most_common combined_index_counter).take 10
      umi_in_headers := umi_present }
  let library : LibraryInfo :=
    { adapter_hits := adapter_summary
      library_type_guesses := library_types
      enrichment_guesses := enrichments
      adapter_hit_rate := top_adapter_fraction }
  match r1_summary.n_fraction with
  | none => Except.error "KeyError: n_fraction"
  | some n_fraction =>
      let warnings : List Str :=
        (match r1_stats.mean_quality with
         | some primary_quality =>
             if primary_quality < 25 then [str "Mean R1 quality score is below Q25"] else []
         | none => []) ++
        (if top_adapter_fraction > 1/5 then
          [str "Adapter sequence present in more than 20% of sampled reads (consider trimming)"]
         else []) ++
        (if n_fraction > 1/20 then [str "More than 5% ambiguous bases in R1 reads"] else [])
      Except.ok
        { sample_id := sample_id
          paired_end := r2_reads.isSome
          sequencing_run := sequencing_run
          library := library
          organism := organism_info
          tissue_guesses := tissues
          read_metrics := read_metrics
          warnings := warnings }

/-! ## Concrete records used to instantiate theorems -/

/-- A well-formed single read whose sequence contains the
`TruSeq LT Adapter` catalog sequence. -/
def ltRead : FastqRead :=
  { header := str "@NS500123:45:FC1:1:1101:1000:1000 1:N:0:ACGT"
    sequence := str "AGATCGGAAGAGCACACGTCTAAAA"
    quality := str "IIIIIIIIIIIIIIIIIIIIIIIII" }

/-- A small well-formed read used by several witnesses. -/
def gcRead : FastqRead :=
  { header := str "@M00001:12:FC2:1:1101:2:2 1:N:0:AAAA"
    sequence := str "GCAT"
    quality := str "IIII" }

/-! ## Helper lemmas -/

/-- `isSubstringOf` decides the infix relation. -/
lemma isSubstringOf_iff (needle hay : Str) :
    isSubstringOf needle hay = true ↔ needle <:+: hay := by
  induction hay with
  | nil =>
      simp [isSubstringOf, List.isPrefixOf_iff_prefix, List.infix_nil, List.prefix_nil]
  | cons c t ih =>
      rw [isSubstringOf]
      simp [List.isPrefixOf_iff_prefix, ih, List.infix_cons_iff]

/-- The group scan of `instrument_to_platform` returns the platform of
the first matching group, in table order. -/
lemma platformScan_eq_find (table : List (List Str × Str)) (u : Str) :
    platformScan table u =
      (table.find? (fun g => g.1.any (fun p => p.isPrefixOf u))).map Prod.snd := by
  induction table with
  | nil => rfl
  | cons g rest ih =>
      rw [platformScan, List.find?]
      by_cases h : g.1.any (fun p => p.isPrefixOf u) <;> simp [h, ih]

/-- Membership in the distinct non-empty index set built by
`classify_index_type`. -/
lemma mem_unique_indexes (l : List Str) (i : Str) :
    i ∈ (l.filter (fun j => j ≠ [])).dedup ↔ i ∈ l ∧ i ≠ [] := by
  simp [List.mem_dedup, List.mem_filter]

/-- The label-collecting fold of `find_keyword_matches` is filtering
followed by projection to labels. -/
lemma foldl_keyword_matches (keyword_map : List (Str × List Str))
    (q : Str × List Str → Bool) (acc : List Str) :
    keyword_map.foldl (fun ms p => if q p then ms ++ [p.1] else ms) acc =
      acc ++ (keyword_map.filter q).map Prod.fst := by
  induction keyword_map generalizing acc with
  | nil => simp
  | cons p rest ih =>
      by_cases h : q p <;> simp [List.filter_cons, h, ih]

/-- `find_keyword_matches` in closed form. -/
lemma find_keyword_matches_eq (value : Str) (keyword_map : List (Str × List Str)) :
    find_keyword_matches value keyword_map =
      (keyword_map.filter (fun p => p.2.any
        (fun keyword => keyword ≠ [] && isSubstringOf (pyLower keyword)
          (normalize_text value)))).map Prod.fst := by
  rw [find_keyword_matches, foldl_keyword_matches, List.nil_append]

/-! ## Claim C9: keyword matching -/

/-- C9: keyword matching normalises the text and emits, in the table's
declared order, exactly the labels one of whose non-empty keywords is a
case-insensitive substring of the normalised text; with distinct table
labels each label is emitted at most once. -/
theorem find_keyword_matches_claim (value : Str) (keyword_map : List (Str × List Str)) :
    (find_keyword_matches value keyword_map =
      (keyword_map.filter (fun p => p.2.any
        (fun keyword => keyword ≠ [] && isSubstringOf (pyLower keyword)
          (normalize_text value)))).map Prod.fst) ∧
    (∀ label, label ∈ find_keyword_matches value keyword_map ↔
      ∃ p ∈ keyword_map, p.1 = label ∧
        ∃ keyword ∈ p.2, keyword ≠ [] ∧ pyLower keyword <:+: normalize_text value) ∧
    ((keyword_map.map Prod.fst).Nodup → (find_keyword_matches value keyword_map).Nodup) := by
  refine ⟨find_keyword_matches_eq value keyword_map, ?_, ?_⟩
  · intro label
    rw [find_keyword_matches_eq]
    simp only [List.mem_map, List.mem_filter, List.any_eq_true, Bool.and_eq_true,
      decide_eq_true_eq, isSubstringOf_iff]
    constructor
    · rintro ⟨p, ⟨hp, k, hk, hne, hinf⟩, rfl⟩
      exact ⟨p, hp, rfl, k, hk, hne, hinf⟩
    · rintro ⟨p, hp, rfl, k, hk, hne, hinf⟩
      exact ⟨p, ⟨hp, k, hk, hne, hinf⟩, rfl⟩
  · intro hnd
    rw [find_keyword_matches_eq]
    exact List.Nodup.sublist ((List.filter_sublist _).map Prod.fst) hnd

/-- C9 witness: on a concrete sample id and the tissue table (whose
labels are distinct) the emitted labels are duplicate-free. -/
theorem find_keyword_matches_claim_witness :
    (find_keyword_matches (str "Sample_Human_Liver_RNAseq") TISSUE_KEYWORDS).Nodup :=
  (find_keyword_matches_claim (str "Sample_Human_Liver_RNAseq") TISSUE_KEYWORDS).2.2
    (by decide)

/-! ## Claim C5: index type classification -/

/-- C5: `classify_index_type` answers `"none"` exactly when no observed
index string is non-empty, `"dual"` exactly when some index contains
`'+'`, and `"single"` exactly when a non-empty index exists but none
contains `'+'`. -/
theorem classify_index_type_claim (index_sequences : List Str) :
    (classify_index_type index_sequences = "none" ↔ ∀ i ∈ index_sequences, i = []) ∧
    (classify_index_type index_sequences = "dual" ↔ ∃ i ∈ index_sequences, '+' ∈ i) ∧
    (classify_index_type index_sequences = "single" ↔
      ((∃ i ∈ index_sequences, i ≠ []) ∧ ∀ i ∈ index_sequences, '+' ∉ i)) := by
  have hmem := mem_unique_indexes index_sequences
  have hcont : ∀ i : Str, i.contains '+' = true ↔ '+' ∈ i := fun i => List.elem_iff
  simp only [classify_index_type]
  by_cases h0 : (index_sequences.filter (fun j => decide (j ≠ []))).dedup = []
  · rw [if_pos h0]
    have hall : ∀ i ∈ index_sequences, i = [] := by
      intro i hi
      by_contra hne
      exact (List.eq_nil_iff_forall_not_mem.mp h0 i) ((hmem i).mpr ⟨hi, hne⟩)
    refine ⟨⟨fun _ => hall, fun _ => rfl⟩, ⟨?_, ?_⟩, ⟨?_, ?_⟩⟩
    · intro h; exact absurd h (by decide)
    · rintro ⟨i, hi, hplus⟩
      rw [hall i hi] at hplus
      exact absurd hplus (List.not_mem_nil _)
    · intro h; exact absurd h (by decide)
    · rintro ⟨⟨i, hi, hne⟩, _⟩
      exact absurd (hall i hi) hne
  · rw [if_neg h0]
    obtain ⟨j, hj⟩ := List.exists_mem_of_ne_nil _ h0
    have hjl := (hmem j).mp hj
    by_cases h1 : (index_sequences.filter (fun j => decide (j ≠ []))).dedup.any
        (fun index => index.contains '+')
    · rw [if_pos h1]
      have hex : ∃ i ∈ index_sequences, '+' ∈ i := by
        obtain ⟨i, hiu, hic⟩ := List.any_eq_true.mp h1
        exact ⟨i, ((hmem i).mp hiu).1, (hcont i).mp hic⟩
      refine ⟨⟨?_, ?_⟩, ⟨fun _ => hex, fun _ => rfl⟩, ⟨?_, ?_⟩⟩
      · intro h; exact absurd h (by decide)
      · intro hall
        obtain ⟨i, hi, hplus⟩ := hex
        rw [hall i hi] at hplus
        exact absurd hplus (List.not_mem_nil _)
      · intro h; exact absurd h (by decide)
      · rintro ⟨_, hno⟩
        obtain ⟨i, hi, hplus⟩ := hex
        exact absurd hplus (hno i hi)
    · rw [if_neg h1]
      have hno : ∀ i ∈ index_sequences, '+' ∉ i := by
        intro i hi hplus
        have hne := List.ne_nil_of_mem hplus
        exact h1 (List.any_eq_true.mpr ⟨i, (hmem i).mpr ⟨hi, hne⟩, (hcont i).mpr hplus⟩)
      refine ⟨⟨?_, ?_⟩, ⟨?_, ?_⟩, ⟨fun _ => ⟨⟨j, hjl.1, hjl.2⟩, hno⟩, fun _ => rfl⟩⟩
      · intro h; exact absurd h (by decide)
      · intro hall
        exact absurd (hall j hjl.1) hjl.2
      · intro h; exact absurd h (by decide)
      · rintro ⟨i, hi, hplus⟩
        exact absurd hplus (hno i hi)

/-- C5 witness: a concrete observed index set with a `+`-separated
barcode classifies as dual. -/
theorem classify_index_type_claim_witness :
    classify_index_type [str "AAAA", str "ACGT+TGCA"] = "dual" :=
  (classify_index_type_claim [str "AAAA", str "ACGT+TGCA"]).2.1.mpr
    ⟨str "ACGT+TGCA", by decide, by decide⟩

/-! ## Claim C6: platform inference -/

/-- C6: `instrument_to_platform` upper-cases the instrument and returns
the platform of the first declared prefix-group containing a matching
start-of-string, and `none` for an absent, empty or unmatched
instrument. -/
theorem instrument_to_platform_claim (instrument : Option Str) :
    instrument_to_platform instrument =
      match instrument with
      | none => none
      | some s =>
          if s = [] then none
          else (INSTRUMENT_PREFIXES.find?
              (fun g => g.1.any (fun p => p.isPrefixOf (pyUpper s)))).map Prod.snd := by
  cases instrument with
  | none => rfl
  | some s =>
      cases s with
      | nil => rfl
      | cons c cs =>
          show platformScan INSTRUMENT_PREFIXES (pyUpper (c :: cs)) = _
          rw [platformScan_eq_find]
          exact (if_neg (List.cons_ne_nil c cs)).symm

/-! ## Claims C2 and C3: the accept/skip behaviour of `add_read`

`add_read` strips leading/trailing whitespace from the sequence and the
quality string before its length checks, so the skip/accept decision is
taken on the stripped strings, not the raw arguments. -/

/-- A rejected record (stripped sequence empty, or stripped lengths
differing) leaves the accumulator untouched. -/
lemma add_read_skip (s : ReadStats) (header sequence quality : Str)
    (h : (pyStrip sequence).length = 0 ∨
      (pyStrip sequence).length ≠ (pyStrip quality).length) :
    ReadStats.add_read s header sequence quality = s := by
  rcases h with h | h
  · simp [ReadStats.add_read, h]
  · by_cases h0 : (pyStrip sequence).length = 0
    · simp [ReadStats.add_read, h0]
    · simp [ReadStats.add_read, h0, h]

/-- C2 (amended): for every input whose *stripped* sequence is empty or
whose *stripped* sequence and quality lengths differ, `add_read`
returns the state unchanged — a skip, not a failure. -/
theorem add_read_skips_malformed (s : ReadStats) (header sequence quality : Str)
    (h : (pyStrip sequence).length = 0 ∨
      (pyStrip sequence).length ≠ (pyStrip quality).length) :
    ReadStats.add_read s header sequence quality = s :=
  add_read_skip s header sequence quality h

/-- C2 witness: a concrete mismatched record is skipped. -/
theorem add_read_skips_malformed_witness :
    ReadStats.add_read ReadStats.init (str "@h") (str "ACGT") (str "II") = ReadStats.init :=
  add_read_skips_malformed ReadStats.init (str "@h") (str "ACGT") (str "II")
    (Or.inr (by decide))

/-- C2 counterexample: the claim as stated compares the *raw* argument
lengths.  The record `("AC ", "II")` has raw lengths `3 ≠ 2`, yet
`add_read` accepts it (both strip to length 2) and changes the state. -/
theorem add_read_skips_malformed_counterexample :
    (str "AC ").length ≠ (str "II").length ∧
    (ReadStats.add_read ReadStats.init (str "@h") (str "AC ") (str "II")).read_count ≠
      ReadStats.init.read_count := by
  exact ⟨by decide, by decide⟩

/-- C3 (amended): for every input whose stripped sequence is non-empty
and matches the stripped quality in length, `add_read` adds `1` to
`read_count` and the stripped sequence length to `total_bases`. -/
theorem add_read_accepted_increments (s : ReadStats) (header sequence quality : Str)
    (h1 : (pyStrip sequence).length ≠ 0)
    (h2 : (pyStrip sequence).length = (pyStrip quality).length) :
    (ReadStats.add_read s header sequence quality).read_count = s.read_count + 1 ∧
    (ReadStats.add_read s header sequence quality).total_bases =
      s.total_bases + (pyStrip sequence).length := by
  have hq : pyStrip quality ≠ [] := by
    intro he
    rw [he] at h2
    exact h1 h2
  simp [ReadStats.add_read, h1, h2, hq]

/-- C3 witness: a concrete valid record adds one read of length 4. -/
theorem add_read_accepted_increments_witness :
    (ReadStats.add_read ReadStats.init (str "@h") (str "ACGT") (str "IIII")).read_count =
      ReadStats.init.read_count + 1 ∧
    (ReadStats.add_read ReadStats.init (str "@h") (str "ACGT") (str "IIII")).total_bases =
      ReadStats.init.total_bases + (pyStrip (str "ACGT")).length :=
  add_read_accepted_increments ReadStats.init (str "@h") (str "ACGT") (str "IIII")
    (by decide) (by decide)

/-- C3 counterexample: the claim as stated quantifies over raw inputs.
The record `(" ", " ")` has a non-empty sequence whose raw length
equals the raw quality length, yet `add_read` skips it (it strips to an
empty sequence), so `read_count` does not increase. -/
theorem add_read_accepted_increments_counterexample :
    (str " ") ≠ [] ∧ (str " ").length = (str " ").length ∧
    (ReadStats.add_read ReadStats.init (str "@h") (str " ") (str " ")).read_count =
      ReadStats.init.read_count := by
  exact ⟨by decide, rfl, by decide⟩

/-! ## Claim C8: GC fraction -/

/-- One `add_read` call preserves `gc_bases ≤ total_bases`. -/
lemma add_read_gc_le (s : ReadStats) (header sequence quality : Str)
    (h : s.gc_bases ≤ s.total_bases) :
    (ReadStats.add_read s header sequence quality).gc_bases ≤
      (ReadStats.add_read s header sequence quality).total_bases := by
  by_cases h0 : (pyStrip sequence).length = 0
  · rw [add_read_skip s header sequence quality (Or.inl h0)]
    exact h
  · by_cases h1 : (pyStrip sequence).length ≠ (pyStrip quality).length
    · rw [add_read_skip s header sequence quality (Or.inr h1)]
      exact h
    · have h2 : (pyStrip sequence).length = (pyStrip quality).length := not_ne_iff.mp h1
      have hq : pyStrip quality ≠ [] := by
        intro he
        rw [he] at h2
        exact h0 h2
      have hq0 : ¬ (pyStrip quality).length = 0 := by
        rw [← h2]
        exact h0
      have hc : List.countP (fun base => base = 'G' ∨ base = 'C')
          (pyUpper (pyStrip sequence)) ≤ (pyStrip quality).length := by
        rw [← h2]
        refine le_trans (List.countP_le_length _) (le_of_eq ?_)
        simp [pyUpper]
      simp only [ReadStats.add_read, h0, h2, hq0, ne_self_iff_false, if_false, ite_false]
      omega

/-- In every state reached by folding `add_read` from the initial
state, the GC count never exceeds the base count. -/
lemma mk_gc_le_total (reads : List FastqRead) :
    (mkReadStats reads).gc_bases ≤ (mkReadStats reads).total_bases := by
  induction reads using List.reverseRecOn with
  | nil => exact Nat.le_refl _
  | append_singleton l r ih =>
      rw [mkReadStats, List.foldl_append, List.foldl_cons, List.foldl_nil]
      exact add_read_gc_le _ r.header r.sequence r.quality ih

/-- C8: in every reachable accumulator state, `gc_fraction` is defined
exactly when `total_bases > 0`, and any defined value lies in `[0, 1]`. -/
theorem gc_fraction_claim (reads : List FastqRead) :
    ((mkReadStats reads).gc_fraction ≠ none ↔ 0 < (mkReadStats reads).total_bases) ∧
    (∀ q : ℚ, (mkReadStats reads).gc_fraction = some q → 0 ≤ q ∧ q ≤ 1) := by
  constructor
  · rw [ReadStats.gc_fraction]
    by_cases h : (mkReadStats reads).total_bases = 0
    · simp [h]
    · simp [h, Nat.pos_of_ne_zero h]
  · intro q hq
    rw [ReadStats.gc_fraction] at hq
    by_cases h : (mkReadStats reads).total_bases = 0
    · rw [if_pos h] at hq
      cases hq
    · rw [if_neg h] at hq
      have hq' := Option.some_injective _ hq
      subst hq'
      have hpos : (0 : ℚ) < ((mkReadStats reads).total_bases : ℚ) := by
        exact_mod_cast Nat.pos_of_ne_zero h
      constructor
      · positivity
      · rw [div_le_one hpos]
        exact_mod_cast mk_gc_le_total reads

/-- C8 witness: for a concrete four-base read with two G/C bases the
defined GC fraction is within bounds. -/
theorem gc_fraction_claim_witness :
    0 ≤ (((mkReadStats [gcRead]).gc_bases : ℚ) / ((mkReadStats [gcRead]).total_bases : ℚ)) ∧
    (((mkReadStats [gcRead]).gc_bases : ℚ) / ((mkReadStats [gcRead]).total_bases : ℚ)) ≤ 1 :=
  (gc_fraction_claim [gcRead]).2 _
    (by rw [ReadStats.gc_fraction, if_neg (by decide)])

/-! ## Claim C10: adapter hit counting -/

/-- `Counter.get` on a cons cell. -/
lemma counter_get_cons [DecidableEq κ] (p : κ × Nat) (rest : Counter κ) (k : κ) :
    Counter.get (p :: rest) k = if p.1 = k then p.2 else Counter.get rest k := by
  by_cases h : p.1 = k
  · rw [Counter.get, List.find?_cons_of_pos _ (by simpa using h), if_pos h]
  · rw [Counter.get, List.find?_cons_of_neg _ (by simpa using h), if_neg h]
    rfl

/-- Incrementing a key raises exactly that key's count. -/
lemma counter_get_incr_self [DecidableEq κ] (c : Counter κ) (k : κ) (n : Nat) :
    Counter.get (Counter.incr c k n) k = Counter.get c k + n := by
  induction c with
  | nil => simp [Counter.incr, counter_get_cons, Counter.get]
  | cons p rest ih =>
      by_cases h : p.1 = k
      · rw [Counter.incr, if_pos h, counter_get_cons, if_pos h, counter_get_cons, if_pos h]
      · rw [Counter.incr, if_neg h, counter_get_cons, if_neg h, counter_get_cons, if_neg h, ih]

/-- Incrementing a key leaves every other key's count unchanged. -/
lemma counter_get_incr_other [DecidableEq κ] (c : Counter κ) (k k' : κ) (n : Nat)
    (hne : k ≠ k') :
    Counter.get (Counter.incr c k n) k' = Counter.get c k' := by
  induction c with
  | nil => simp [Counter.incr, counter_get_cons, Counter.get, hne]
  | cons p rest ih =>
      by_cases h : p.1 = k
      · have hne' : p.1 ≠ k' := by
          rw [h]
          exact hne
        rw [Counter.incr, if_pos h, counter_get_cons, counter_get_cons,
          if_neg hne', if_neg hne']
      · rw [Counter.incr, if_neg h, counter_get_cons, counter_get_cons, ih]

/-- The adapter scan adds, for each name, the number of catalog entries
with that name whose non-empty sequence occurs in the read. -/
lemma adapter_fold_get (catalog : List (Str × Str)) (su : Str) (c : Counter Str)
    (name : Str) :
    Counter.get
      (catalog.foldl
        (fun acc p => if p.2 ≠ [] && isSubstringOf p.2 su then Counter.incr acc p.1 1 else acc)
        c) name =
      Counter.get c name +
        (catalog.filter (fun p => p.1 = name && (p.2 ≠ [] && isSubstringOf p.2 su))).length := by
  induction catalog generalizing c with
  | nil => simp
  | cons p rest ih =>
      rw [List.foldl_cons, List.filter_cons]
      by_cases hc : (p.2 ≠ [] && isSubstringOf p.2 su : Bool) = true
      · rw [if_pos hc, ih]
        by_cases hname : p.1 = name
        · subst hname
          rw [counter_get_incr_self]
          have hcond : (decide (p.1 = p.1) && (decide (p.2 ≠ []) && isSubstringOf p.2 su)) = true := by
            simp only [Bool.and_eq_true] at hc ⊢
            exact ⟨by simp, hc⟩
          rw [if_pos hcond, List.length_cons]
          omega
        · rw [counter_get_incr_other c p.1 name 1 hname]
          have hcond : (decide (p.1 = name) && (decide (p.2 ≠ []) && isSubstringOf p.2 su)) = false := by
            simp [hname]
          rw [hcond, if_neg (by simp)]
      · rw [if_neg hc, ih]
        have hfalse : (decide (p.2 ≠ []) && isSubstringOf p.2 su) = false :=
          Bool.eq_false_iff.mpr hc
        have hcond : (decide (p.1 = name) && (decide (p.2 ≠ []) && isSubstringOf p.2 su)) = false := by
          rw [hfalse, Bool.and_false]
        rw [hcond, if_neg (by simp)]

/-- With distinct catalog names, at most one entry matches a name, so
the per-name filter has the indicator length. -/
lemma adapter_filter_length (catalog : List (Str × Str)) (su : Str) (name : Str)
    (hnd : (catalog.map Prod.fst).Nodup) :
    (catalog.filter (fun p => p.1 = name && (p.2 ≠ [] && isSubstringOf p.2 su))).length =
      if catalog.any (fun p => p.1 = name && (p.2 ≠ [] && isSubstringOf p.2 su))
      then 1 else 0 := by
  induction catalog with
  | nil => simp
  | cons p rest ih =>
      rw [List.map_cons] at hnd
      have hnotin : p.1 ∉ rest.map Prod.fst := (List.nodup_cons.mp hnd).1
      have hnd2 : (rest.map Prod.fst).Nodup := (List.nodup_cons.mp hnd).2
      rw [List.filter_cons, List.any_cons]
      by_cases hc : (decide (p.1 = name) && (decide (p.2 ≠ []) && isSubstringOf p.2 su)) = true
      · have hc' : decide (p.1 = name) = true ∧
            (decide (p.2 ≠ []) && isSubstringOf p.2 su) = true := by
          rw [← Bool.and_eq_true]
          exact hc
        have hpn : p.1 = name := of_decide_eq_true hc'.1
        have hrest : rest.filter
            (fun p => decide (p.1 = name) && (decide (p.2 ≠ []) && isSubstringOf p.2 su)) = [] := by
          rw [List.filter_eq_nil_iff]
          intro x hx hqx
          have hqx' : decide (x.1 = name) = true ∧
              (decide (x.2 ≠ []) && isSubstringOf x.2 su) = true := by
            rw [← Bool.and_eq_true]
            exact hqx
          have hxn : x.1 = name := of_decide_eq_true hqx'.1
          apply hnotin
          rw [← hpn] at hxn
          rw [← hxn]
          exact List.mem_map_of_mem Prod.fst hx
        rw [if_pos hc, hrest, hc, Bool.true_or, if_pos rfl, List.length_cons, List.length_nil]
      · have hfalse : (decide (p.1 = name) && (decide (p.2 ≠ []) && isSubstringOf p.2 su)) = false :=
          Bool.eq_false_iff.mpr hc
        rw [if_neg hc, ih hnd2, hfalse, Bool.false_or]

/-- On an accepted read, the new adapter counter is the adapter scan of
the old one over the upper-cased stripped sequence. -/
lemma add_read_adapter_hits (s : ReadStats) (header sequence quality : Str)
    (h0 : (pyStrip sequence).length ≠ 0)
    (h2 : (pyStrip sequence).length = (pyStrip quality).length) :
    (ReadStats.add_read s header sequence quality).adapter_hits =
      adapterHitsUpdate s.adapter_hits (pyUpper (pyStrip sequence)) := by
  have hq0 : ¬ (pyStrip quality).length = 0 := by
    rw [← h2]
    exact h0
  simp only [ReadStats.add_read, h0, h2, hq0, ne_self_iff_false, if_false, ite_false]

/-- C10: per accepted read each adapter counter advances by the
containment indicator (at most 1, regardless of how many occurrences
the read holds); the TruSeq Universal sequence is a prefix of the
TruSeq LT sequence in the catalog, so the single concrete read holding
the LT sequence counts one hit for both adapters. -/
theorem adapter_hits_claim :
    (∀ (s : ReadStats) (header sequence quality name : Str),
      (pyStrip sequence).length ≠ 0 →
      (pyStrip sequence).length = (pyStrip quality).length →
      (Counter.get (ReadStats.add_read s header sequence quality).adapter_hits name =
        Counter.get s.adapter_hits name +
          (if ADAPTER_SEQUENCES.any (fun p => p.1 = name &&
              (p.2 ≠ [] && isSubstringOf p.2 (pyUpper (pyStrip sequence)))) then 1 else 0) ∧
      Counter.get (ReadStats.add_read s header sequence quality).adapter_hits name ≤
        Counter.get s.adapter_hits name + 1)) ∧
    ((ADAPTER_SEQUENCES.find? (fun p => p.1 = str "TruSeq Universal Adapter")).map Prod.snd =
      some (str "AGATCGGAAGAG")) ∧
    ((ADAPTER_SEQUENCES.find? (fun p => p.1 = str "TruSeq LT Adapter")).map Prod.snd =
      some (str "AGATCGGAAGAGCACACGTCT")) ∧
    (str "AGATCGGAAGAG").isPrefixOf (str "AGATCGGAAGAGCACACGTCT") = true ∧
    Counter.get (mkReadStats [ltRead]).adapter_hits (str "TruSeq Universal Adapter") = 1 ∧
    Counter.get (mkReadStats [ltRead]).adapter_hits (str "TruSeq LT Adapter") = 1 := by
  refine ⟨?_, by decide, by decide, by decide, by decide, by decide⟩
  intro s header sequence quality name h0 h2
  have heq : Counter.get (ReadStats.add_read s header sequence quality).adapter_hits name =
      Counter.get s.adapter_hits name +
        (if ADAPTER_SEQUENCES.any (fun p => p.1 = name &&
            (p.2 ≠ [] && isSubstringOf p.2 (pyUpper (pyStrip sequence)))) then 1 else 0) := by
    rw [add_read_adapter_hits s header sequence quality h0 h2, adapterHitsUpdate,
      adapter_fold_get, adapter_filter_length _ _ _ (by decide)]
  refine ⟨heq, ?_⟩
  rw [heq]
  split
  · exact Nat.le_refl _
  · omega

/-- C10 witness: the containment-indicator equation instantiated on the
concrete LT-adapter read, from the empty accumulator. -/
theorem adapter_hits_claim_witness :
    Counter.get (ReadStats.add_read ReadStats.init (str "@h")
        (str "AGATCGGAAGAGCACACGTCTAAAA") (str "IIIIIIIIIIIIIIIIIIIIIIIII")).adapter_hits
        (str "TruSeq LT Adapter") =
      Counter.get ReadStats.init.adapter_hits (str "TruSeq LT Adapter") +
        (if ADAPTER_SEQUENCES.any (fun p => p.1 = str "TruSeq LT Adapter" &&
            (p.2 ≠ [] && isSubstringOf p.2
              (pyUpper (pyStrip (str "AGATCGGAAGAGCACACGTCTAAAA"))))) then 1 else 0) :=
  (adapter_hits_claim.1 ReadStats.init (str "@h") (str "AGATCGGAAGAGCACACGTCTAAAA")
    (str "IIIIIIIIIIIIIIIIIIIIIIIII") (str "TruSeq LT Adapter")
    (by decide) (by decide)).1

/-! ## Claim C1: zero-read report building -/

/-- C1: on an empty FASTQ (zero reads) `analyze_sample` does *not*
return a report.  The zero-read summary is the minimal dictionary
without an `n_fraction` key, and the warning check
`r1_summary["n_fraction"]` then raises `KeyError`. -/
theorem analyze_sample_zero_reads_keyerror :
    analyze_sample (str "S") [] none 50000 = Except.error "KeyError: n_fraction" := rfl

/-! ## Claim C7: the adapter hit rate -/

/-- A non-empty counter sorts, under `most_common`, to a list whose
head carries the maximal count. -/
lemma most_common_cons (l : List (Str × Nat)) (hne : l ≠ []) :
    ∃ p rest, Counter.most_common l = p :: rest ∧
      p.2 = (l.map Prod.snd).foldr max 0 := by
  induction l with
  | nil => exact absurd rfl hne
  | cons q l ih =>
      by_cases hl : l = []
      · subst hl
        refine ⟨q, [], rfl, ?_⟩
        simp
      · obtain ⟨p, rest, hmc, hmax⟩ := ih hl
        rw [Counter.most_common, sortByB] at hmc
        rw [Counter.most_common, sortByB, List.foldr_cons, hmc, insertSorted]
        by_cases hle : (decide (p.2 ≤ q.2)) = true
        · rw [if_pos hle]
          refine ⟨q, p :: rest, rfl, ?_⟩
          rw [List.map_cons, List.foldr_cons, ← hmax]
          exact (Nat.max_eq_left (of_decide_eq_true hle)).symm
        · rw [if_neg hle]
          refine ⟨p, insertSorted _ q rest, rfl, ?_⟩
          rw [List.map_cons, List.foldr_cons, ← hmax]
          have hq : q.2 ≤ p.2 :=
            Nat.le_of_lt (Nat.lt_of_not_le (fun hc => hle (decide_eq_true hc)))
          exact (Nat.max_eq_right hq).symm

/-- C7: every report `analyze_sample` builds carries
`adapter_hit_rate` equal to the maximal single-adapter count of the
combined R1/R2 counter divided by the total sampled reads, and `0`
when there are no reads or no adapter hits. -/
theorem adapter_hit_rate_claim (sample_id : Str) (r1_reads : List FastqRead)
    (r2_reads : Option (List FastqRead)) (max_reads : Nat)
    (h : (analyze_sample sample_id r1_reads r2_reads max_reads).toOption.isSome = true) :
    (analyze_sample sample_id r1_reads r2_reads max_reads).toOption.map
        (fun md => md.library.adapter_hit_rate) =
      some (if combined_adapter_counter_of r1_reads r2_reads max_reads ≠ [] ∧
              total_sampled_reads_of r1_reads r2_reads max_reads ≠ 0 then
              ((((combined_adapter_counter_of r1_reads r2_reads max_reads).map
                  Prod.snd).foldr max 0 : Nat) : ℚ) /
                ((total_sampled_reads_of r1_reads r2_reads max_reads : Nat) : ℚ)
            else 0) := by
  simp only [analyze_sample] at h ⊢
  cases hnf : (ReadStats.summary (collect_read_statistics r1_reads max_reads)).n_fraction with
  | none =>
      rw [hnf] at h
      simp [Except.toOption] at h
  | some nf =>
      simp only [Except.toOption, Option.map_some]
      by_cases hcond : combined_adapter_counter_of r1_reads r2_reads max_reads ≠ [] ∧
          total_sampled_reads_of r1_reads r2_reads max_reads ≠ 0
      · rw [if_pos hcond, if_pos hcond]
        obtain ⟨p, rest, hmc, hmax⟩ := most_common_cons _ hcond.1
        rw [hmc, ← hmax]
        rfl
      · rw [if_neg hcond, if_neg hcond]
        rfl

/-- C7 witness: the single-read sample containing the TruSeq LT
sequence produces a report whose adapter hit rate is the stated
quotient. -/
theorem adapter_hit_rate_claim_witness :
    (analyze_sample (str "S") [ltRead] none 50000).toOption.map
        (fun md => md.library.adapter_hit_rate) =
      some (if combined_adapter_counter_of [ltRead] none 50000 ≠ [] ∧
              total_sampled_reads_of [ltRead] none 50000 ≠ 0 then
              ((((combined_adapter_counter_of [ltRead] none 50000).map
                  Prod.snd).foldr max 0 : Nat) : ℚ) /
                ((total_sampled_reads_of [ltRead] none 50000 : Nat) : ℚ)
            else 0) :=
  adapter_hit_rate_claim (str "S") [ltRead] none 50000 (by rfl)

/-! ## Claim C4: the per-cycle quality invariant -/

/-- `bumpSums` preserves length. -/
lemma bumpSums_length (arr scores : List Int) :
    (bumpSums arr scores).length = arr.length := by
  induction arr generalizing scores with
  | nil => cases scores <;> rfl
  | cons a arr ih =>
      cases scores with
      | nil => rfl
      | cons s scores => simp [bumpSums, ih]

/-- `bumpCounts` preserves length. -/
lemma bumpCounts_length (arr : List Nat) (k : Nat) :
    (bumpCounts arr k).length = arr.length := by
  induction arr generalizing k with
  | nil => cases k <;> rfl
  | cons a arr ih =>
      cases k with
      | zero => rfl
      | succ k => simp [bumpCounts, ih]

/-- Padding with the default value does not change `getD`. -/
lemma getD_append_replicate (xs : List α) (k i : Nat) (z : α) :
    (xs ++ List.replicate k z).getD i z = xs.getD i z := by
  induction xs generalizing i with
  | nil =>
      induction k generalizing i with
      | zero => rfl
      | succ k ihk =>
          cases i with
          | zero => rfl
          | succ i => exact ihk i
  | cons x xs ih =>
      cases i with
      | zero => rfl
      | succ i => simpa using ih i

/-- Element-wise effect of `bumpSums`, seen through `getD`. -/
lemma bumpSums_getD (arr scores : List Int) (h : scores.length ≤ arr.length) (i : Nat) :
    (bumpSums arr scores).getD i 0 = arr.getD i 0 + scores.getD i 0 := by
  induction scores generalizing arr i with
  | nil =>
      cases arr <;> simp [bumpSums]
  | cons s scores ih =>
      cases arr with
      | nil => simp at h
      | cons a arr =>
          cases i with
          | zero => simp [bumpSums]
          | succ i =>
              simp only [bumpSums, List.getD_cons_succ]
              exact ih arr (by simpa using h) i

/-- Element-wise effect of `bumpCounts`, seen through `getD`. -/
lemma bumpCounts_getD (arr : List Nat) (k : Nat) (h : k ≤ arr.length) (i : Nat) :
    (bumpCounts arr k).getD i 0 = arr.getD i 0 + if i < k then 1 else 0 := by
  induction k generalizing arr i with
  | zero =>
      cases arr <;> simp [bumpCounts]
  | succ k ih =>
      cases arr with
      | nil => simp at h
      | cons a arr =>
          cases i with
          | zero => simp [bumpCounts]
          | succ i =>
              simp only [bumpCounts, List.getD_cons_succ]
              rw [ih arr (by simpa using h) i]
              by_cases hik : i < k
              · rw [if_pos hik, if_pos (Nat.succ_lt_succ hik)]
              · rw [if_neg hik, if_neg (fun hc => hik (Nat.lt_of_succ_lt_succ hc))]

/-- Appending one element to a max-fold takes the max with it. -/
lemma foldr_max_append (xs : List Nat) (y : Nat) :
    (xs ++ [y]).foldr max 0 = max (xs.foldr max 0) y := by
  induction xs with
  | nil => simp [Nat.max_comm]
  | cons x xs ih =>
      simp only [List.cons_append, List.foldr_cons, ih]
      omega

/-- A position below the max of mapped values is below some value. -/
lemma exists_mem_of_lt_foldr_max {α : Type} (l : List α) (f : α → Nat) (i : Nat)
    (h : i < (l.map f).foldr max 0) : ∃ x ∈ l, i < f x := by
  induction l with
  | nil => simp at h
  | cons x l ih =>
      simp only [List.map_cons, List.foldr_cons] at h
      rcases lt_max_iff.mp h with h | h
      · exact ⟨x, List.mem_cons_self x l, h⟩
      · obtain ⟨y, hy, hiy⟩ := ih h
        exact ⟨y, List.mem_cons_of_mem x hy, hiy⟩

/-- Folding one more record applies `add_read` to the previous state. -/
lemma mkReadStats_concat (l : List FastqRead) (r : FastqRead) :
    mkReadStats (l ++ [r]) =
      ReadStats.add_read (mkReadStats l) r.header r.sequence r.quality := by
  rw [mkReadStats, mkReadStats, List.foldl_append, List.foldl_cons, List.foldl_nil]

/-- On an accepted read, the new per-cycle arrays are the extend-then-
accumulate of the old ones. -/
lemma add_read_cycles (s : ReadStats) (header sequence quality : Str)
    (h0 : (pyStrip sequence).length ≠ 0)
    (h2 : (pyStrip sequence).length = (pyStrip quality).length) :
    (ReadStats.add_read s header sequence quality).cycle_quality_sums =
      bumpSums
        (if s.cycle_quality_sums.length < (pyStrip quality).length then
          s.cycle_quality_sums ++
            List.replicate ((pyStrip quality).length - s.cycle_quality_sums.length) 0
         else s.cycle_quality_sums)
        ((pyStrip quality).map (fun char => (char.toNat : Int) - 33)) ∧
    (ReadStats.add_read s header sequence quality).cycle_quality_counts =
      bumpCounts
        (if s.cycle_quality_sums.length < (pyStrip quality).length then
          s.cycle_quality_counts ++
            List.replicate ((pyStrip quality).length - s.cycle_quality_sums.length) 0
         else s.cycle_quality_counts)
        ((pyStrip quality).map (fun char => (char.toNat : Int) - 33)).length := by
  have hq0 : ¬ (pyStrip quality).length = 0 := by
    rw [← h2]
    exact h0
  constructor <;>
    simp only [ReadStats.add_read, h0, h2, hq0, ne_self_iff_false, if_false, ite_false]

/-- The cycle-array invariant, by induction over the read stream: the
two arrays stay equally long, their length is the longest accepted
read, and entry `i` aggregates exactly the accepted reads longer than
`i`. -/
lemma cycle_inv (reads : List FastqRead) :
    (mkReadStats reads).cycle_quality_counts.length =
      (mkReadStats reads).cycle_quality_sums.length ∧
    (mkReadStats reads).cycle_quality_sums.length =
      ((reads.filter FastqRead.accepted).map FastqRead.alen).foldr max 0 ∧
    (∀ i : Nat, (mkReadStats reads).cycle_quality_counts.getD i 0 =
      ((reads.filter FastqRead.accepted).filter (fun r => i < FastqRead.alen r)).length) ∧
    (∀ i : Nat, (mkReadStats reads).cycle_quality_sums.getD i 0 =
      (((reads.filter FastqRead.accepted).filter (fun r => i < FastqRead.alen r)).map
        (fun r => (FastqRead.scores r).getD i 0)).sum) := by
  induction reads using List.reverseRecOn with
  | nil =>
      refine ⟨rfl, rfl, fun i => ?_, fun i => ?_⟩ <;> simp [mkReadStats, ReadStats.init]
  | append_singleton l r ih =>
      obtain ⟨ih1, ih2, ih3, ih4⟩ := ih
      rw [mkReadStats_concat]
      by_cases hacc : FastqRead.accepted r = true
      · have hprops : (pyStrip r.sequence).length ≠ 0 ∧
            (pyStrip r.sequence).length = (pyStrip r.quality).length := by
          simpa [FastqRead.accepted] using hacc
        have hfilter : (l ++ [r]).filter FastqRead.accepted =
            l.filter FastqRead.accepted ++ [r] := by
          rw [List.filter_append]
          simp [hacc]
        obtain ⟨hsums, hcounts⟩ :=
          add_read_cycles (mkReadStats l) r.header r.sequence r.quality hprops.1 hprops.2
        have halen : ((pyStrip r.quality).map (fun char => (char.toNat : Int) - 33)).length
            = FastqRead.alen r := by
          rw [List.length_map, FastqRead.alen, hprops.2]
        have hscores : (pyStrip r.quality).map (fun char => (char.toNat : Int) - 33)
            = FastqRead.scores r := rfl
        set n := (mkReadStats l).cycle_quality_sums.length with hn
        have hsums_base_len :
            (if n < (pyStrip r.quality).length then
              (mkReadStats l).cycle_quality_sums ++
                List.replicate ((pyStrip r.quality).length - n) 0
             else (mkReadStats l).cycle_quality_sums).length =
              max n (pyStrip r.quality).length := by
          by_cases hext : n < (pyStrip r.quality).length
          · rw [if_pos hext, List.length_append, List.length_replicate]
            omega
          · rw [if_neg hext]
            omega
        have hcounts_base_len :
            (if n < (pyStrip r.quality).length then
              (mkReadStats l).cycle_quality_counts ++
                List.replicate ((pyStrip r.quality).length - n) 0
             else (mkReadStats l).cycle_quality_counts).length =
              max n (pyStrip r.quality).length := by
          by_cases hext : n < (pyStrip r.quality).length
          · rw [if_pos hext, List.length_append, List.length_replicate, ih1]
            omega
          · rw [if_neg hext, ih1]
            omega
        have hcounts_base_getD : ∀ i : Nat,
            (if n < (pyStrip r.quality).length then
              (mkReadStats l).cycle_quality_counts ++
                List.replicate ((pyStrip r.quality).length - n) 0
             else (mkReadStats l).cycle_quality_counts).getD i 0 =
              (mkReadStats l).cycle_quality_counts.getD i 0 := by
          intro i
          by_cases hext : n < (pyStrip r.quality).length
          · rw [if_pos hext, getD_append_replicate]
          · rw [if_neg hext]
        have hsums_base_getD : ∀ i : Nat,
            (if n < (pyStrip r.quality).length then
              (mkReadStats l).cycle_quality_sums ++
                List.replicate ((pyStrip r.quality).length - n) 0
             else (mkReadStats l).cycle_quality_sums).getD i 0 =
              (mkReadStats l).cycle_quality_sums.getD i 0 := by
          intro i
          by_cases hext : n < (pyStrip r.quality).length
          · rw [if_pos hext, getD_append_replicate]
          · rw [if_neg hext]
        refine ⟨?_, ?_, fun i => ?_, fun i => ?_⟩
        · rw [hsums, hcounts, bumpSums_length, bumpCounts_length,
            hsums_base_len, hcounts_base_len]
        · rw [hsums, bumpSums_length, hsums_base_len, hfilter, List.map_append,
            List.map_cons, List.map_nil, foldr_max_append, ← ih2]
          have halen' : FastqRead.alen r = (pyStrip r.quality).length := by
            rw [FastqRead.alen, hprops.2]
          rw [halen']
        · rw [hcounts, bumpCounts_getD _ _ (by
            rw [List.length_map, hcounts_base_len]
            omega) i]
          rw [hcounts_base_getD i, ih3 i, hfilter, List.filter_append, List.length_append]
          congr 1
          by_cases hi : i < FastqRead.alen r
          · rw [halen, if_pos hi]
            simp [hi]
          · rw [halen, if_neg hi]
            simp [hi]
        · rw [hsums, bumpSums_getD _ _ (by
            rw [List.length_map, hsums_base_len]
            omega) i]
          rw [hsums_base_getD i, ih4 i, hfilter, List.filter_append, List.map_append,
            List.sum_append]
          congr 1
          by_cases hi : i < FastqRead.alen r
          · rw [hscores]
            simp [hi]
          · rw [hscores, List.getD_eq_default]
            · simp [hi]
            · have hlen : (FastqRead.scores r).length = FastqRead.alen r := by
                rw [← hscores, halen]
              omega
      · have hskip : ReadStats.add_read (mkReadStats l) r.header r.sequence r.quality =
            mkReadStats l := by
          apply add_read_skip
          by_cases hz : (pyStrip r.sequence).length = 0
          · exact Or.inl hz
          · right
            intro he
            apply hacc
            rw [FastqRead.accepted]
            exact decide_eq_true ⟨hz, he⟩
        have hfilter : (l ++ [r]).filter FastqRead.accepted =
            l.filter FastqRead.accepted := by
          rw [List.filter_append]
          simp [hacc]
        rw [hskip, hfilter]
        exact ⟨ih1, ih2, ih3, ih4⟩

/-- C4: in every reachable state the per-cycle arrays have equal
length, that length is the longest accepted read (no cycles beyond
it), entry `i` counts exactly the accepted reads longer than `i`, sums
exactly their cycle-`i` Phred scores, and the reported per-cycle mean
at `i` is the mean over exactly those reads. -/
theorem cycle_quality_invariant (reads : List FastqRead) :
    (mkReadStats reads).cycle_quality_counts.length =
      (mkReadStats reads).cycle_quality_sums.length ∧
    (mkReadStats reads).cycle_quality_sums.length =
      ((reads.filter FastqRead.accepted).map FastqRead.alen).foldr max 0 ∧
    (∀ i : Nat, (mkReadStats reads).cycle_quality_counts.getD i 0 =
      ((reads.filter FastqRead.accepted).filter (fun r => i < FastqRead.alen r)).length) ∧
    (∀ i : Nat, (mkReadStats reads).cycle_quality_sums.getD i 0 =
      (((reads.filter FastqRead.accepted).filter (fun r => i < FastqRead.alen r)).map
        (fun r => (FastqRead.scores r).getD i 0)).sum) ∧
    (∀ i : Nat, i < ((reads.filter FastqRead.accepted).map FastqRead.alen).foldr max 0 →
      (per_cycle_mean_of (mkReadStats reads)).getD i none =
        some ((((((reads.filter FastqRead.accepted).filter
              (fun r => i < FastqRead.alen r)).map
            (fun r => (FastqRead.scores r).getD i 0)).sum : Int) : ℚ) /
          (((((reads.filter FastqRead.accepted).filter
              (fun r => i < FastqRead.alen r)).length : Nat) : ℚ)))) := by
  obtain ⟨h1, h2, h3, h4⟩ := cycle_inv reads
  refine ⟨h1, h2, h3, h4, fun i hi => ?_⟩
  have hlen_s : i < (mkReadStats reads).cycle_quality_sums.length := by
    rw [h2]
    exact hi
  have hlen_c : i < (mkReadStats reads).cycle_quality_counts.length := by
    rw [h1, h2]
    exact hi
  rw [per_cycle_mean_of]
  have hzip_len : i < ((mkReadStats reads).cycle_quality_sums.zip
      (mkReadStats reads).cycle_quality_counts).length := by
    rw [List.length_zip]
    exact lt_min hlen_s hlen_c
  have hmap_len : i < (((mkReadStats reads).cycle_quality_sums.zip
      (mkReadStats reads).cycle_quality_counts).map
        (fun p => if p.2 = 0 then none else some ((p.1 : ℚ) / (p.2 : ℚ)))).length := by
    rw [List.length_map]
    exact hzip_len
  rw [List.getD_eq_getElem _ _ hmap_len, List.getElem_map, List.getElem_zip]
  have hcval : (mkReadStats reads).cycle_quality_counts[i] =
      ((reads.filter FastqRead.accepted).filter
        (fun r => i < FastqRead.alen r)).length := by
    rw [← List.getD_eq_getElem _ 0 hlen_c]
    exact h3 i
  have hsval : (mkReadStats reads).cycle_quality_sums[i] =
      (((reads.filter FastqRead.accepted).filter (fun r => i < FastqRead.alen r)).map
        (fun r => (FastqRead.scores r).getD i 0)).sum := by
    rw [← List.getD_eq_getElem _ 0 hlen_s]
    exact h4 i
  obtain ⟨x, hx, hix⟩ := exists_mem_of_lt_foldr_max _ FastqRead.alen i hi
  have hpos : ((reads.filter FastqRead.accepted).filter
      (fun r => i < FastqRead.alen r)).length ≠ 0 := by
    have hmem : x ∈ (reads.filter FastqRead.accepted).filter
        (fun r => decide (i < FastqRead.alen r)) :=
      List.mem_filter.mpr ⟨hx, decide_eq_true hix⟩
    intro hzero
    rw [List.length_eq_zero] at hzero
    rw [hzero] at hmem
    exact List.not_mem_nil x hmem
  simp only [hcval, hsval, if_neg hpos]

/-- C4 witness: the first cycle of a single four-base read averages
exactly that read's first Phred score. -/
theorem cycle_quality_invariant_witness :
    (per_cycle_mean_of (mkReadStats [gcRead])).getD 0 none =
      some ((((((([gcRead] : List FastqRead).filter FastqRead.accepted).filter
            (fun r => 0 < FastqRead.alen r)).map
          (fun r => (FastqRead.scores r).getD 0 0)).sum : Int) : ℚ) /
        ((((([gcRead] : List FastqRead).filter FastqRead.accepted).filter
            (fun r => 0 < FastqRead.alen r)).length : Nat) : ℚ)) :=
  (cycle_quality_invariant [gcRead]).2.2.2.2 0 (by decide)
